import Mathlib

/-!
# Verification of the simbiopy `regression.py` module

Shallow embedding of `src/regression.py`.  Numeric data is modelled over `ℚ`
(exact rational arithmetic) for the linear-algebra plumbing, and over `ℝ` for
the geometric queries that involve square roots and π.  NumPy's
`np.linalg.pinv` (the Moore-Penrose pseudo-inverse) and `np.linalg.eig` are
external library routines; they are modelled as parameters supplying their
results.  Python exceptions (`assert`, `raise ValueError`) are modelled with
`Except String`.
-/

namespace Regression

/-- Row-major rational matrix, mirroring a 2D numpy array / `pd.DataFrame`. -/
abbrev Mat := List (List ℚ)

/-- Inner product of two rows (numpy dot product of aligned vectors). -/
def dot (u v : List ℚ) : ℚ := (List.zipWith (fun a b => a * b) u v).sum

/-- Number of columns: length of the first row (matrices are rectangular). -/
def ncols (A : Mat) : ℕ := (A.headD []).length

/-- Transpose of a rectangular matrix (`A.T`). -/
def tr (A : Mat) : Mat :=
  (List.range (ncols A)).map (fun j => A.map (fun r => r.getD j 0))

/-- Matrix product `A @ B`. -/
def matMul (A B : Mat) : Mat := A.map (fun r => (tr B).map (fun c => dot r c))

/-- `LinearRegression._add_intercept` (lines 104-111): insert a column of
ones at position 0 of the design matrix. -/
def addIntercept (x : Mat) : Mat := x.map (fun r => 1 :: r)

/-- `LinearRegression._calculate_betas` (lines 132-147):
`betas = (pinv((D.T @ D)) @ D.T) @ y` where `D` is `x` with an intercept
column of ones prepended when `fit_intercept` is set.  `np.linalg.pinv`
(the Moore-Penrose pseudo-inverse, total also on singular input) is an
external routine passed in as `pinvFn`.  The complex-coefficient check of
`__init__` (line 57) never fires over exact rational data. -/
def lr_calculate_betas (pinvFn : Mat → Mat) (y x : Mat) (fit_intercept : Bool) : Mat :=
  let D := if fit_intercept then addIntercept x else x
  matMul (matMul (pinvFn (matMul (tr D) D)) (tr D)) y

/-- `LinearRegression._set_inputs` row-count check (lines 129-130):
`assert self.x.shape[0] == self.y.shape[0]`. -/
def rowCheck (y x : Mat) : Except String Unit :=
  if x.length = y.length then Except.ok ()
  else Except.error "x and y number of rows must be identical."

/-- Shared constructor skeleton (`LinearRegression.__init__`, lines 44-58):
every model class first runs the shared row-count check of `_set_inputs`,
then its own extra input checks, then its own `_calculate_betas`.  A failing
step aborts construction: no model object is produced. -/
def model_construct (extra : Mat → Mat → Except String Unit)
    (estimate : Mat → Mat → Except String Mat) (y x : Mat) : Except String Mat :=
  match rowCheck y x with
  | Except.error e => Except.error e
  | Except.ok _ =>
    match extra y x with
    | Except.error e => Except.error e
    | Except.ok _ => estimate y x

/-- `np.all(values > 0)` over a matrix. -/
def allPosB (A : Mat) : Bool := A.all (fun r => r.all (fun e => 0 < e))

/-- `PowerRegression._set_inputs` extra checks (lines 306-319): after the
shared checks, assert all of `y` and then all of `x` strictly positive. -/
def power_extra (y x : Mat) : Except String Unit :=
  if !(allPosB y) then Except.error "y must be positive only."
  else if !(allPosB x) then Except.error "x must be positive only."
  else Except.ok ()

/-- Elementwise reciprocal `x ** (-1)` (line 380). -/
def recip (A : Mat) : Mat := A.map (fun r => r.map (fun e => e⁻¹))

/-- `HyperbolicRegression._calculate_betas` (lines 376-385): design matrix
`[1 | x⁻¹]`, no logarithm anywhere. -/
def hyperbolic_calculate_betas (pinvFn : Mat → Mat) (y x : Mat) : Mat :=
  let D := addIntercept (recip x)
  matMul (matMul (pinvFn (matMul (tr D) D)) (tr D)) y

/-- `HyperbolicRegression.__init__` (lines 369-374): it inherits
`PowerRegression._set_inputs`, hence the strict-positivity checks run
before its `_calculate_betas` ever does. -/
def hyperbolic_construct (pinvFn : Mat → Mat) (y x : Mat) : Except String Mat :=
  model_construct power_extra
    (fun yv xv => Except.ok (hyperbolic_calculate_betas pinvFn yv xv)) y x

/-- Post-fit state of a `LinearRegression` instance: the fields `__call__`
can read (and could in principle write). -/
structure LRState where
  y : Mat
  x : Mat
  fit_intercept : Bool
  betas : Mat

/-- `LinearRegression.__call__` (lines 161-179) in state-passing form: it
builds the design matrix from the new input (a fresh local `v`; the
intercept column is inserted into that local copy only) and returns the
resulting model state together with the prediction `v @ betas`. -/
def lr_call (m : LRState) (xin : Mat) : LRState × Mat :=
  let v := if m.fit_intercept then addIntercept xin else xin
  (m, matMul v m.betas)

/-- Conic discriminant `4*e0*e2 - e1**2` of column `j` of the eigenvector
matrix (line 601: `con = 4 * eigvec[0] * eigvec[2] - eigvec[1] ** 2`). -/
def conDisc (E : Fin 3 → Fin 3 → ℚ) (j : Fin 3) : ℚ :=
  4 * E 0 j * E 2 j - (E 1 j) ^ 2

/-- Columns selected by `eigvec[:, np.nonzero(con > 0)[0]]` (line 602):
the column indices 0, 1, 2 whose conic discriminant is positive, in
order. -/
def selCols (E : Fin 3 → Fin 3 → ℚ) : List (Fin 3) :=
  ([0, 1, 2] : List (Fin 3)).filter (fun j => 0 < conDisc E j)

/-- 3×3 matrix product (`trc @ eiv_pos` acts columnwise through this). -/
def mat3mul (A B : Fin 3 → Fin 3 → ℚ) : Fin 3 → Fin 3 → ℚ :=
  fun i j => A i 0 * B 0 j + A i 1 * B 1 j + A i 2 * B 2 j

/-- `np.concatenate((eiv_pos, trc @ eiv_pos)).ravel()` (line 603): the
selected columns of `E` stacked above the selected columns of `T @ E`,
read out row-major.  With `k` selected columns this list has `6*k`
entries. -/
def ravelCoefs (E T : Fin 3 → Fin 3 → ℚ) : List ℚ :=
  (selCols E).map (E 0) ++ (selCols E).map (E 1) ++ (selCols E).map (E 2) ++
  (selCols E).map (mat3mul T E 0) ++ (selCols E).map (mat3mul T E 1) ++
  (selCols E).map (mat3mul T E 2)

/-- `EllipsisRegression._calculate_betas` (lines 597-626) up to and
including the checks the construction path performs on the stored
coefficient vector: the tuple unpacking `a, c, b = flatten()[:3]`
(line 609, needs exactly 3 items), the `c == 0` guard (line 612), and the
tuple unpacking `a, b, c, d, e = flatten()[:-1]` inside the `center`
property invoked at line 624 (needs exactly 5 items).  `np.linalg.eig` is
external: its eigenvector matrix is the parameter `E`; `T` is the
reduction matrix `trc`.  Later steps (axis construction) can only run when
this returns `Except.ok`. -/
def ellipseBetasPipeline (E T : Fin 3 → Fin 3 → ℚ) : Except String (List ℚ) :=
  let coefs := ravelCoefs E T
  if (coefs.take 3).length ≠ 3 then Except.error "cannot unpack a, c, b"
  else if coefs.getD 1 0 = 0 then Except.error "coefficient c = 0."
  else if coefs.dropLast.length ≠ 5 then Except.error "cannot unpack a, b, c, d, e"
  else Except.ok coefs

/-- Concrete eigenvector matrix for the C3 witness: rows `(1,1,0)`,
`(1,0,1)`, `(1,0,0)`; only column 0 satisfies the ellipse discriminant. -/
def Ew : Fin 3 → Fin 3 → ℚ := ![![1, 1, 0], ![1, 0, 1], ![1, 0, 0]]

/-- Concrete reduction matrix for the C3 witness. -/
def Tw : Fin 3 → Fin 3 → ℚ := fun _ _ => 0

/-- `CircleRegression` coefficient vector `(a, b, c)` of
`x**2 + y**2 = a*x + b*y + c`, as stored in `self.betas`. -/
structure CircleBetas where
  a : ℝ
  b : ℝ
  c : ℝ

/-- `CircleRegression.radius` (lines 1055-1066):
`((4 * c + a**2 + b**2) ** 0.5) * 0.5`. -/
noncomputable def CircleBetas.radius (β : CircleBetas) : ℝ :=
  Real.sqrt (4 * β.c + β.a ^ 2 + β.b ^ 2) * 0.5

/-- `CircleRegression.center` (lines 1068-1079): `(a * 0.5, b * 0.5)`. -/
noncomputable def CircleBetas.center (β : CircleBetas) : ℝ × ℝ :=
  (β.a * 0.5, β.b * 0.5)

/-- `CircleRegression.area` (lines 1081-1091): `np.pi * radius**2`. -/
noncomputable def CircleBetas.area (β : CircleBetas) : ℝ :=
  Real.pi * β.radius ^ 2

/-- `CircleRegression.perimeter` (lines 1093-1103): `2 * radius * np.pi`. -/
noncomputable def CircleBetas.perimeter (β : CircleBetas) : ℝ :=
  2 * β.radius * Real.pi

/-- `_Axis` vertex pair (lines 449-499). -/
structure Axis where
  v0 : ℝ × ℝ
  v1 : ℝ × ℝ

/-- `_Axis.length` (lines 486-492): Euclidean distance between the two
vertex points, `((a0-b0)**2 + (a1-b1)**2) ** 0.5`. -/
noncomputable def Axis.length (ax : Axis) : ℝ :=
  Real.sqrt ((ax.v0.1 - ax.v1.1) ^ 2 + (ax.v0.2 - ax.v1.2) ^ 2)

/-- The two axes stored by a fitted `EllipsisRegression`
(lines 640-642), ordered so the major one comes first. -/
structure EllipseAxes where
  axis_major : Axis
  axis_minor : Axis

/-- `EllipsisRegression.area` (lines 790-800):
`np.pi * self.axis_major.length * self.axis_minor.length`. -/
noncomputable def EllipseAxes.area (E : EllipseAxes) : ℝ :=
  Real.pi * E.axis_major.length * E.axis_minor.length

open Classical in
/-- `EllipsisRegression._solve` (lines 682-709), the quadratic solver:
raises on negative discriminant, otherwise returns
`(-b*k + k*sqrt(d), -b*k - k*sqrt(d))` with `k = (2*a)**(-1)`. -/
noncomputable def ellipse_solve (a b c : ℝ) : Except String (ℝ × ℝ) :=
  let d := b ^ 2 - 4 * a * c
  if d < 0 then Except.error "b**2 - 4 * a * c < 0"
  else
    let k := (2 * a)⁻¹
    let i := -b * k
    let j := k * Real.sqrt d
    Except.ok (i + j, i - j)

open Classical in
/-- `CircleRegression._get_roots` with `x` given (lines 952-990): builds
the quadratic `1*t**2 + (-2*y0)*t + (y0**2 - r**2 + (x - x0)**2) = 0` from
`center` and `radius` and raises when its discriminant is negative. -/
noncomputable def circle_get_roots_x (β : CircleBetas) (x : ℝ) : Except String (ℝ × ℝ) :=
  let x0 := β.center.1
  let y0 := β.center.2
  let r := β.radius
  let qa : ℝ := 1
  let qb := -2 * y0
  let qc := y0 ^ 2 - r ^ 2 + (x - x0) ^ 2
  let d := qb ^ 2 - 4 * qa * qc
  if d < 0 then Except.error "b**2 - 4 * a * c < 0"
  else if qa = 0 then Except.error "coefficient a = 0"
  else Except.ok ((-qb - Real.sqrt d) / (2 * qa), (-qb + Real.sqrt d) / (2 * qa))

/-- `CircleRegression.__call__` with `x` given (lines 992-1029): the batch
`[self._get_roots(x=i) for i in v.values]`; the first row that raises
aborts the whole comprehension. -/
noncomputable def circle_call_x (β : CircleBetas) : List ℝ → Except String (List (ℝ × ℝ))
  | [] => Except.ok []
  | v :: rest =>
    match circle_get_roots_x β v with
    | Except.error e => Except.error e
    | Except.ok p =>
      match circle_call_x β rest with
      | Except.error e => Except.error e
      | Except.ok ps => Except.ok (p :: ps)

/-- Series ratio `h = (a - b)**2 / (a**2 + b**2)` computed from the two
half axis lengths (line 828); `lM`, `lm` are the full lengths. -/
noncomputable def periH (lM lm : ℝ) : ℝ :=
  ((lM / 2 - lm / 2) ^ 2) / ((lM / 2) ^ 2 + (lm / 2) ^ 2)

/-- Running total of the series after the n-th pass:
`sum over k = 0..n of h^k / 4^k`. -/
noncomputable def qsum (h : ℝ) (n : ℕ) : ℝ :=
  ∑ k ∈ Finset.range (n + 1), h ^ k / 4 ^ k

/-- Loop variables of `EllipsisRegression.perimeter` (lines 830-838). -/
structure PeriState where
  p_old : ℝ
  p : ℝ
  n : ℕ
  q : ℝ

/-- One pass of the `while` body (lines 835-838): `p_old = p; n += 1;
q += h**n / 4**n; p = c * q`. -/
noncomputable def periStep (c h : ℝ) (s : PeriState) : PeriState :=
  ⟨s.p, c * (s.q + h ^ (s.n + 1) / 4 ^ (s.n + 1)), s.n + 1,
    s.q + h ^ (s.n + 1) / 4 ^ (s.n + 1)⟩

/-- The `while` guard (line 834): `n == 0 or abs(p_old - p) > 1e-12`. -/
def periCont (s : PeriState) : Prop := s.n = 0 ∨ |s.p_old - s.p| > 1e-12

open Classical in
/-- Fuel-indexed run of the `while` loop; `some p` when the guard fails
within `fuel` checks, `none` when the fuel runs out first. -/
noncomputable def periLoop (c h : ℝ) : ℕ → PeriState → Option ℝ
  | 0, _ => none
  | fuel + 1, s =>
    if periCont s then periLoop c h fuel (periStep c h s) else some s.p

/-- Initial loop state `p_old = -c, p = c, n = 0, q = 1` (lines 830-833). -/
noncomputable def periInit (c : ℝ) : PeriState := ⟨-c, c, 0, 1⟩

/-- Loop state after `k` passes of the body, starting from `periInit c`. -/
noncomputable def pIter (c h : ℝ) : ℕ → PeriState
  | 0 => periInit c
  | k + 1 => periStep c h (pIter c h k)

open Classical in
/-- `EllipsisRegression.perimeter` (lines 802-840): `a`, `b` are the half
axis lengths; the guard `a == 0 and b == 0` raises, otherwise the series
loop runs with `h = (a-b)**2/(a**2+b**2)` and `c = pi*(a+b)`. -/
noncomputable def ellipse_perimeter (lM lm : ℝ) (fuel : ℕ) : Except String (Option ℝ) :=
  if lM / 2 = 0 ∧ lm / 2 = 0 then Except.error "a and b coefficients = 0."
  else Except.ok (periLoop (Real.pi * (lM / 2 + lm / 2)) (periH lM lm) fuel
    (periInit (Real.pi * (lM / 2 + lm / 2))))

/-! ## Theorems -/

/-- Every row of a matrix product has one entry per column of the right
factor. -/
theorem mem_matMul_length {A B : Mat} {r : List ℚ} (hr : r ∈ matMul A B) :
    r.length = ncols B := by
  rcases List.mem_map.mp hr with ⟨a, _, rfl⟩
  simp [tr]

/-- C2. For a `LinearRegression` fitted with `fit_intercept=True`, the
stored coefficient matrix is `pinv(Dᵀ·D)·Dᵀ·Y` for `D = [1 | X]` (an
intercept column of ones prepended to the predictors), and it has one
coefficient column per target dimension of `Y`.  No invertibility of
`Dᵀ·D` is assumed anywhere: the pseudo-inverse parameter is total, so the
formula stands also on singular or rank-deficient `Dᵀ·D`. -/
theorem linreg_betas_pinv_formula (pinvFn : Mat → Mat) (y x : Mat) :
    lr_calculate_betas pinvFn y x true =
      matMul (matMul (pinvFn (matMul (tr (x.map (fun r => 1 :: r)))
        (x.map (fun r => 1 :: r)))) (tr (x.map (fun r => 1 :: r)))) y ∧
    ∀ r ∈ lr_calculate_betas pinvFn y x true, r.length = ncols y := by
  refine ⟨rfl, ?_⟩
  intro r hr
  exact mem_matMul_length hr

/-- C8. Constructing any model whose `y` and `x` row counts differ fails
with the ShapeError raised by the shared `_set_inputs`, whatever the
model-specific input checks and estimation step are: no model object is
produced. -/
theorem construct_row_mismatch_fails (extra : Mat → Mat → Except String Unit)
    (estimate : Mat → Mat → Except String Mat) (y x : Mat)
    (h : x.length ≠ y.length) :
    model_construct extra estimate y x =
      Except.error "x and y number of rows must be identical." := by
  unfold model_construct rowCheck
  rw [if_neg h]

theorem construct_row_mismatch_fails_witness :
    ([] : Mat).length ≠ ([[(0 : ℚ)]] : Mat).length ∧
    model_construct (fun _ _ => Except.ok ()) (fun _ _ => Except.ok [])
      [[(0 : ℚ)]] [] =
      Except.error "x and y number of rows must be identical." :=
  ⟨by decide, construct_row_mismatch_fails _ _ _ _ (by decide)⟩

/-- C9. `predict` is a pure function of the immutable post-fit state: a
call leaves the model state unchanged, and a second call on that state
with the identical input returns the identical output. -/
theorem lr_call_idempotent (m : LRState) (xin : Mat) :
    (lr_call m xin).1 = m ∧
    (lr_call ((lr_call m xin).1) xin).2 = (lr_call m xin).2 :=
  ⟨rfl, rfl⟩

theorem allPosB_eq_true {A : Mat} :
    allPosB A = true ↔ ∀ r ∈ A, ∀ e ∈ r, 0 < e := by
  simp [allPosB, List.all_eq_true]

/-- The `PowerRegression` positivity checks reject any matrix pair in
which `x` or `y` holds a non-positive entry. -/
theorem power_extra_fails (y x : Mat)
    (h : (∃ r ∈ x, ∃ e ∈ r, e ≤ 0) ∨ (∃ r ∈ y, ∃ e ∈ r, e ≤ 0)) :
    power_extra y x = Except.error "y must be positive only." ∨
    power_extra y x = Except.error "x must be positive only." := by
  by_cases hy : allPosB y = true
  · right
    have hx : ¬ allPosB x = true := by
      intro hx
      rcases h with ⟨r, hr, e, he, hle⟩ | ⟨r, hr, e, he, hle⟩
      · exact absurd (allPosB_eq_true.mp hx r hr e he) (not_lt.mpr hle)
      · exact absurd (allPosB_eq_true.mp hy r hr e he) (not_lt.mpr hle)
    simp [power_extra, hy, hx]
  · left
    simp [power_extra, hy]

/-- C10. Constructing a `HyperbolicRegression` from data with any
non-positive entry in `x` or in `y` fails before the estimation step ever
runs (the result is an error regardless of `pinvFn`), because the class
inherits `PowerRegression._set_inputs` and its strict-positivity checks,
even though its own `_calculate_betas` uses `x**(-1)` and no logarithm. -/
theorem hyperbolic_rejects_nonpositive (pinvFn : Mat → Mat) (y x : Mat)
    (h : (∃ r ∈ x, ∃ e ∈ r, e ≤ 0) ∨ (∃ r ∈ y, ∃ e ∈ r, e ≤ 0)) :
    ∃ msg, hyperbolic_construct pinvFn y x = Except.error msg := by
  by_cases hrow : x.length = y.length
  · rcases power_extra_fails y x h with hpe | hpe
    · exact ⟨"y must be positive only.",
        by simp [hyperbolic_construct, model_construct, rowCheck, hrow, hpe]⟩
    · exact ⟨"x must be positive only.",
        by simp [hyperbolic_construct, model_construct, rowCheck, hrow, hpe]⟩
  · exact ⟨"x and y number of rows must be identical.",
      by simp [hyperbolic_construct, model_construct, rowCheck, hrow]⟩

theorem hyperbolic_rejects_nonpositive_witness :
    ((∃ r ∈ ([[(-2 : ℚ)]] : Mat), ∃ e ∈ r, e ≤ 0) ∨
      (∃ r ∈ ([[(1 : ℚ)]] : Mat), ∃ e ∈ r, e ≤ 0)) ∧
    ∃ msg, hyperbolic_construct (fun _ => []) [[(1 : ℚ)]] [[(-2 : ℚ)]] =
      Except.error msg :=
  ⟨Or.inl ⟨[(-2 : ℚ)], by simp, (-2 : ℚ), by simp, by norm_num⟩,
    hyperbolic_rejects_nonpositive _ _ _
      (Or.inl ⟨[(-2 : ℚ)], by simp, (-2 : ℚ), by simp, by norm_num⟩)⟩

/-- The raveled coefficient list has `6*k` entries for `k` selected
eigenvector columns. -/
theorem ravelCoefs_length (E T : Fin 3 → Fin 3 → ℚ) :
    (ravelCoefs E T).length = 6 * (selCols E).length := by
  simp [ravelCoefs]
  ring

/-- C3. Whenever the `EllipsisRegression` coefficient computation gets
through the checks that the construction path performs on the stored
vector, that vector has exactly 6 scalars, exactly one eigenvector column
satisfies the ellipse discriminant `4*e0*e2 - e1**2 > 0` (the filter
selects precisely one column `j`), and the vector is the concatenation of
that eigenvector with `T @ eigenvector`. -/
theorem ellipse_betas_six_unique_eigvec (E T : Fin 3 → Fin 3 → ℚ)
    (cs : List ℚ) (h : ellipseBetasPipeline E T = Except.ok cs) :
    cs.length = 6 ∧ ∃ j : Fin 3, selCols E = [j] ∧
      cs = [E 0 j, E 1 j, E 2 j,
        mat3mul T E 0 j, mat3mul T E 1 j, mat3mul T E 2 j] := by
  simp only [ellipseBetasPipeline] at h
  by_cases h1 : ((ravelCoefs E T).take 3).length ≠ 3
  · rw [if_pos h1] at h
    exact absurd h (by simp)
  · rw [if_neg h1] at h
    by_cases h2 : (ravelCoefs E T).getD 1 0 = 0
    · rw [if_pos h2] at h
      exact absurd h (by simp)
    · rw [if_neg h2] at h
      by_cases h3 : (ravelCoefs E T).dropLast.length ≠ 5
      · rw [if_pos h3] at h
        exact absurd h (by simp)
      · rw [if_neg h3] at h
        have hcs : cs = ravelCoefs E T := by
          cases h
          rfl
        push_neg at h3
        rw [List.length_dropLast, ravelCoefs_length] at h3
        have hk : (selCols E).length = 1 := by omega
        obtain ⟨j, hj⟩ := List.length_eq_one.mp hk
        subst hcs
        refine ⟨by rw [ravelCoefs_length, hk], j, hj, ?_⟩
        simp [ravelCoefs, hj]

theorem ellipse_betas_six_unique_eigvec_witness :
    ellipseBetasPipeline Ew Tw = Except.ok [1, 1, 1, 0, 0, 0] ∧
    (([1, 1, 1, 0, 0, 0] : List ℚ).length = 6 ∧ ∃ j : Fin 3,
      selCols Ew = [j] ∧
      ([1, 1, 1, 0, 0, 0] : List ℚ) = [Ew 0 j, Ew 1 j, Ew 2 j,
        mat3mul Tw Ew 0 j, mat3mul Tw Ew 1 j, mat3mul Tw Ew 2 j]) := by
  have hsel : selCols Ew = [0] := by
    have h0 : conDisc Ew 0 = 3 := by
      show (4 * (1 : ℚ) * 1 - 1 ^ 2) = 3
      norm_num
    have h1 : conDisc Ew 1 = 0 := by
      show (4 * (1 : ℚ) * 0 - 0 ^ 2) = 0
      norm_num
    have h2 : conDisc Ew 2 = -1 := by
      show (4 * (0 : ℚ) * 0 - 1 ^ 2) = -1
      norm_num
    norm_num [selCols, List.filter_cons, h0, h1, h2]
  have m0 : mat3mul Tw Ew 0 0 = 0 := by
    show ((0 : ℚ) * 1 + 0 * 1 + 0 * 1) = 0
    norm_num
  have m1 : mat3mul Tw Ew 1 0 = 0 := by
    show ((0 : ℚ) * 1 + 0 * 1 + 0 * 1) = 0
    norm_num
  have m2 : mat3mul Tw Ew 2 0 = 0 := by
    show ((0 : ℚ) * 1 + 0 * 1 + 0 * 1) = 0
    norm_num
  have hrav : ravelCoefs Ew Tw = [1, 1, 1, 0, 0, 0] := by
    simp only [ravelCoefs]
    rw [hsel]
    simp only [List.map_cons, List.map_nil, List.cons_append, List.nil_append,
      m0, m1, m2]
    rfl
  have hp : ellipseBetasPipeline Ew Tw = Except.ok [1, 1, 1, 0, 0, 0] := by
    simp only [ellipseBetasPipeline, hrav]
    norm_num
  exact ⟨hp, ellipse_betas_six_unique_eigvec Ew Tw _ hp⟩

/-- C4. For every `CircleRegression` coefficient vector `(a, b, c)` the
derived queries satisfy the closed forms of the claim:
`radius = 0.5*sqrt(4c + a^2 + b^2)`, `center = (a/2, b/2)`,
`area = pi*radius^2` and `perimeter = 2*pi*radius`. -/
theorem circle_geometry_closed_forms (β : CircleBetas) :
    β.radius = 0.5 * Real.sqrt (4 * β.c + β.a ^ 2 + β.b ^ 2) ∧
    β.center = (β.a / 2, β.b / 2) ∧
    β.area = Real.pi * β.radius ^ 2 ∧
    β.perimeter = 2 * Real.pi * β.radius := by
  refine ⟨by rw [CircleBetas.radius]; ring, ?_, rfl,
    by rw [CircleBetas.perimeter]; ring⟩
  rw [CircleBetas.center, Prod.ext_iff]
  constructor <;> norm_num <;> ring

/-- C5. The `EllipsisRegression.area` query returns π times the full
length of the major axis (the distance between its two vertex points)
times the full length of the minor axis. -/
theorem ellipse_area_full_axis_lengths (E : EllipseAxes) :
    E.area = Real.pi *
      Real.sqrt ((E.axis_major.v0.1 - E.axis_major.v1.1) ^ 2 +
        (E.axis_major.v0.2 - E.axis_major.v1.2) ^ 2) *
      Real.sqrt ((E.axis_minor.v0.1 - E.axis_minor.v1.1) ^ 2 +
        (E.axis_minor.v0.2 - E.axis_minor.v1.2) ^ 2) := rfl

/-- C7. For a genuine quadratic (`a ≠ 0`), `_solve` fails exactly when the
discriminant `b^2 - 4*a*c` is negative; at zero discriminant it returns
two identical real roots; and whenever the discriminant is non-negative
the two returned values are real roots of `a*x^2 + b*x + c = 0`. -/
theorem quadratic_solve_spec (a b c : ℝ) (ha : a ≠ 0) :
    ((∃ e, ellipse_solve a b c = Except.error e) ↔ b ^ 2 - 4 * a * c < 0) ∧
    (b ^ 2 - 4 * a * c = 0 →
      ellipse_solve a b c = Except.ok (-b * (2 * a)⁻¹, -b * (2 * a)⁻¹)) ∧
    (0 ≤ b ^ 2 - 4 * a * c →
      ∃ r0 r1, ellipse_solve a b c = Except.ok (r0, r1) ∧
        a * r0 ^ 2 + b * r0 + c = 0 ∧ a * r1 ^ 2 + b * r1 + c = 0) := by
  refine ⟨?_, ?_, ?_⟩
  · constructor
    · rintro ⟨e, he⟩
      by_contra hd
      simp only [ellipse_solve, if_neg hd] at he
      exact Except.noConfusion he
    · intro hd
      exact ⟨"b**2 - 4 * a * c < 0", by simp only [ellipse_solve, if_pos hd]⟩
  · intro hd
    have hnd : ¬ (b ^ 2 - 4 * a * c < 0) := by rw [hd]; norm_num
    simp only [ellipse_solve, if_neg hnd, hd, Real.sqrt_zero, mul_zero,
      add_zero, sub_zero]
    norm_num
  · intro hd
    have hnd : ¬ (b ^ 2 - 4 * a * c < 0) := not_lt.mpr hd
    have hs : Real.sqrt (b ^ 2 - 4 * a * c) ^ 2 = b ^ 2 - 4 * a * c :=
      Real.sq_sqrt hd
    refine ⟨-b * (2 * a)⁻¹ + (2 * a)⁻¹ * Real.sqrt (b ^ 2 - 4 * a * c),
      -b * (2 * a)⁻¹ - (2 * a)⁻¹ * Real.sqrt (b ^ 2 - 4 * a * c),
      by simp only [ellipse_solve, if_neg hnd], ?_, ?_⟩
    · field_simp
      linear_combination (16 * a ^ 5) * hs
    · field_simp
      linear_combination (16 * a ^ 5) * hs

theorem quadratic_solve_spec_witness :
    (1 : ℝ) ≠ 0 ∧
    (((∃ e, ellipse_solve 1 0 (-1) = Except.error e) ↔
        (0 : ℝ) ^ 2 - 4 * 1 * (-1) < 0) ∧
      ((0 : ℝ) ^ 2 - 4 * 1 * (-1) = 0 →
        ellipse_solve 1 0 (-1) =
          Except.ok (-0 * (2 * 1)⁻¹, -0 * (2 * 1)⁻¹)) ∧
      ((0 : ℝ) ≤ 0 ^ 2 - 4 * 1 * (-1) →
        ∃ r0 r1, ellipse_solve 1 0 (-1) = Except.ok (r0, r1) ∧
          1 * r0 ^ 2 + 0 * r0 + -1 = 0 ∧ 1 * r1 ^ 2 + 0 * r1 + -1 = 0)) :=
  ⟨one_ne_zero, quadratic_solve_spec 1 0 (-1) one_ne_zero⟩

/-- C1 (code bug evidence). For the circle `x^2 + y^2 = 1` (stored betas
`(0, 0, 1)`, e.g. fitted from the four points `(±1, 0), (0, ±1)`), the
batch inverse query `predict(x=[5, 0])` raises
`ValueError("b**2 - 4 * a * c < 0")` on its first row and aborts the whole
batch — even though the second row `x = 0` has the valid roots `(-1, 1)`.
The claim (and the docstrings of `__call__` and `_get_roots`) instead
promise an in-band `(None, None)` sentinel for the bad row with the other
rows still returned. -/
theorem circle_predict_aborts_batch :
    circle_call_x ⟨0, 0, 1⟩ [5, 0] = Except.error "b**2 - 4 * a * c < 0" ∧
    circle_get_roots_x ⟨0, 0, 1⟩ 0 = Except.ok (-1, 1) := by
  have hrad : (CircleBetas.mk 0 0 1).radius = 1 := by
    rw [CircleBetas.radius]
    norm_num
    rw [show (4 : ℝ) = 2 ^ 2 by norm_num,
      Real.sqrt_sq (by norm_num : (0 : ℝ) ≤ 2)]
    norm_num
  have hcen : (CircleBetas.mk 0 0 1).center = (0, 0) := by
    rw [CircleBetas.center]
    norm_num
  have h5 : circle_get_roots_x ⟨0, 0, 1⟩ 5 =
      Except.error "b**2 - 4 * a * c < 0" := by
    rw [circle_get_roots_x, hrad, hcen]
    norm_num
  have h0 : circle_get_roots_x ⟨0, 0, 1⟩ 0 = Except.ok (-1, 1) := by
    rw [circle_get_roots_x, hrad, hcen]
    norm_num
    rw [show (4 : ℝ) = 2 ^ 2 by norm_num,
      Real.sqrt_sq (by norm_num : (0 : ℝ) ≤ 2)]
    norm_num
  refine ⟨?_, h0⟩
  rw [circle_call_x, h5]

theorem qsum_zero (h : ℝ) : qsum h 0 = 1 := by
  simp [qsum]

theorem qsum_succ (h : ℝ) (n : ℕ) :
    qsum h (n + 1) = qsum h n + h ^ (n + 1) / 4 ^ (n + 1) := by
  simp [qsum, Finset.sum_range_succ]

/-- After `k + 1` passes the loop state holds the running totals
`q = qsum h (k+1)` and the two most recent series values. -/
theorem pIter_succ_eq (c h : ℝ) : ∀ k, pIter c h (k + 1) =
    ⟨c * qsum h k, c * qsum h (k + 1), k + 1, qsum h (k + 1)⟩
  | 0 => by
    simp only [pIter, periStep, periInit, qsum_zero, qsum_succ]
    norm_num
  | k + 1 => by
    rw [show pIter c h (k + 1 + 1) = periStep c h (pIter c h (k + 1)) from rfl,
      pIter_succ_eq c h k]
    simp only [periStep, qsum_succ]

/-- Two successive series values differ by exactly the newly added term. -/
theorem qsum_diff (c h : ℝ) (hc : 0 ≤ c) (hh : 0 ≤ h) (m : ℕ) :
    |c * qsum h m - c * qsum h (m + 1)| = c * h ^ (m + 1) / 4 ^ (m + 1) := by
  rw [qsum_succ,
    show c * qsum h m - c * (qsum h m + h ^ (m + 1) / 4 ^ (m + 1)) =
      -(c * (h ^ (m + 1) / 4 ^ (m + 1))) by ring,
    abs_neg, abs_of_nonneg (by positivity)]
  ring

open Classical in
/-- With enough fuel, the loop runs exactly to the first state whose guard
fails and returns that state's `p`. -/
theorem periLoop_run (c h : ℝ) : ∀ (m k : ℕ),
    (∀ j, k ≤ j → j < k + m → periCont (pIter c h j)) →
    ¬ periCont (pIter c h (k + m)) →
    periLoop c h (m + 1) (pIter c h k) = some (pIter c h (k + m)).p
  | 0, k, _, hstop => by
    rw [Nat.add_zero] at hstop
    rw [show periLoop c h (0 + 1) (pIter c h k) =
      if periCont (pIter c h k) then periLoop c h 0 (periStep c h (pIter c h k))
      else some (pIter c h k).p from rfl, if_neg hstop, Nat.add_zero]
  | m + 1, k, hcont, hstop => by
    have hck : periCont (pIter c h k) := hcont k le_rfl (by omega)
    have hrec := periLoop_run c h m (k + 1)
      (fun j hj1 hj2 => hcont j (by omega) (by omega))
      (by rw [show k + 1 + m = k + (m + 1) from by omega]; exact hstop)
    rw [show periLoop c h (m + 1 + 1) (pIter c h k) =
      if periCont (pIter c h k) then
        periLoop c h (m + 1) (periStep c h (pIter c h k))
      else some (pIter c h k).p from rfl, if_pos hck,
      show periStep c h (pIter c h k) = pIter c h (k + 1) from rfl, hrec,
      show k + 1 + m = k + (m + 1) from by omega]

/-- Geometric decay: some pass adds at most the tolerance. -/
theorem stop_exists (c h : ℝ) (hc : 0 ≤ c) (hh0 : 0 ≤ h) (hh1 : h ≤ 1) :
    ∃ N, 1 ≤ N ∧ c * h ^ N / 4 ^ N ≤ 1e-12 := by
  obtain ⟨n, hn⟩ := exists_pow_lt_of_lt_one
    (show (0 : ℝ) < 1e-12 / (c + 1) by positivity)
    (show (1 : ℝ) / 4 < 1 by norm_num)
  refine ⟨n + 1, by omega, le_of_lt ?_⟩
  have hr0 : (0 : ℝ) ≤ 1 / 4 := by norm_num
  have hr1 : (1 : ℝ) / 4 ≤ 1 := by norm_num
  have h1 : c * h ^ (n + 1) ≤ c + 1 := by
    nlinarith [pow_nonneg hh0 (n + 1), pow_le_one₀ hh0 hh1 (n := n + 1)]
  have h2 : ((1 : ℝ) / 4) ^ (n + 1) ≤ (1 / 4 : ℝ) ^ n :=
    pow_le_pow_of_le_one hr0 hr1 (by omega)
  have h3 : (c + 1) * ((1 / 4 : ℝ) ^ n) < (c + 1) * (1e-12 / (c + 1)) :=
    mul_lt_mul_of_pos_left hn (by positivity)
  have h4 : (c + 1) * (1e-12 / (c + 1)) = 1e-12 := by
    field_simp
  calc c * h ^ (n + 1) / 4 ^ (n + 1)
      = (c * h ^ (n + 1)) * ((1 / 4) ^ (n + 1)) := by
        rw [div_pow]
        ring
    _ ≤ (c + 1) * ((1 / 4) ^ (n + 1)) := by
        apply mul_le_mul_of_nonneg_right h1 (by positivity)
    _ ≤ (c + 1) * ((1 / 4) ^ n) := by
        apply mul_le_mul_of_nonneg_left h2 (by positivity)
    _ < 1e-12 := by rw [← h4]; exact h3

open Classical in
/-- The series loop, run from its initial state with factor `c ≥ 0` and
ratio `0 ≤ h ≤ 1`, terminates at the first pass `N ≥ 1` whose added term
is within tolerance, returning `c * qsum h N`. -/
theorem periLoop_terminates_general (c h : ℝ) (hc : 0 ≤ c) (hh0 : 0 ≤ h)
    (hh1 : h ≤ 1) :
    ∃ fuel N, 1 ≤ N ∧
      periLoop c h fuel (periInit c) = some (c * qsum h N) ∧
      c * h ^ N / 4 ^ N ≤ 1e-12 := by
  classical
  have hex : ∃ N, 1 ≤ N ∧ c * h ^ N / 4 ^ N ≤ 1e-12 := stop_exists c h hc hh0 hh1
  set N := Nat.find hex with hNdef
  have hPN : 1 ≤ N ∧ c * h ^ N / 4 ^ N ≤ 1e-12 := Nat.find_spec hex
  have hmin : ∀ j, j < N → ¬ (1 ≤ j ∧ c * h ^ j / 4 ^ j ≤ 1e-12) :=
    fun j hj => Nat.find_min hex hj
  obtain ⟨m, hmN⟩ : ∃ m, N = m + 1 := ⟨N - 1, by omega⟩
  have hstop : ¬ periCont (pIter c h N) := by
    rw [hmN, pIter_succ_eq, periCont]
    push_neg
    refine ⟨by simp, ?_⟩
    rw [qsum_diff c h hc hh0 m]
    rw [hmN] at hPN
    exact hPN.2
  have hcont : ∀ j, 0 ≤ j → j < 0 + N → periCont (pIter c h j) := by
    intro j _ hj
    rw [Nat.zero_add] at hj
    rcases Nat.eq_zero_or_pos j with rfl | hjpos
    · left
      rfl
    · obtain ⟨i, rfl⟩ : ∃ i, j = i + 1 := ⟨j - 1, by omega⟩
      have hnP := hmin _ hj
      rw [pIter_succ_eq, periCont]
      right
      show |c * qsum h i - c * qsum h (i + 1)| > 1e-12
      rw [qsum_diff c h hc hh0 i]
      by_contra hle
      push_neg at hle
      exact hnP ⟨by omega, hle⟩
  have hrun := periLoop_run c h N 0 hcont (by rw [Nat.zero_add]; exact hstop)
  refine ⟨N + 1, N, hPN.1, ?_, hPN.2⟩
  rw [show periInit c = pIter c h 0 from rfl, hrun, Nat.zero_add, hmN,
    pIter_succ_eq]

open Classical in
/-- C6 (amended). For non-negative axis lengths not both zero, the series
ratio satisfies `0 ≤ h ≤ 1` (not `h < 1`: `h = 1` when one length is
zero), each pass adds `h^n / 4^n` to the running total, and the loop
terminates at the first pass `N ≥ 1` whose added scaled term
`pi*(a+b)*h^N/4^N` is at most `1e-12`, returning
`pi*(a+b) * (sum over k = 0..N of h^k/4^k)`. -/
theorem ellipse_perimeter_terminates (lM lm : ℝ) (hM : 0 ≤ lM) (hm : 0 ≤ lm)
    (hne : ¬ (lM / 2 = 0 ∧ lm / 2 = 0)) :
    0 ≤ periH lM lm ∧ periH lM lm ≤ 1 ∧
    ∃ fuel N, 1 ≤ N ∧
      ellipse_perimeter lM lm fuel =
        Except.ok (some (Real.pi * (lM / 2 + lm / 2) * qsum (periH lM lm) N)) ∧
      Real.pi * (lM / 2 + lm / 2) * periH lM lm ^ N / 4 ^ N ≤ 1e-12 := by
  have ha0 : 0 ≤ lM / 2 := by positivity
  have hb0 : 0 ≤ lm / 2 := by positivity
  have hden : 0 < (lM / 2) ^ 2 + (lm / 2) ^ 2 := by
    rcases lt_or_eq_of_le (by positivity : (0 : ℝ) ≤ (lM / 2) ^ 2 + (lm / 2) ^ 2)
      with hlt | heq
    · exact hlt
    · exfalso
      have ha2 : (lM / 2) ^ 2 = 0 := by
        nlinarith [sq_nonneg (lM / 2), sq_nonneg (lm / 2)]
      have hb2 : (lm / 2) ^ 2 = 0 := by
        nlinarith [sq_nonneg (lM / 2), sq_nonneg (lm / 2)]
      exact hne ⟨(pow_eq_zero_iff (by norm_num : 2 ≠ 0)).mp ha2,
        (pow_eq_zero_iff (by norm_num : 2 ≠ 0)).mp hb2⟩
  have hh0 : 0 ≤ periH lM lm := by
    rw [periH]
    positivity
  have hh1 : periH lM lm ≤ 1 := by
    rw [periH, div_le_one hden]
    nlinarith [mul_nonneg ha0 hb0]
  have hc : 0 ≤ Real.pi * (lM / 2 + lm / 2) :=
    mul_nonneg Real.pi_pos.le (by positivity)
  obtain ⟨fuel, N, hN1, hloop, hbound⟩ :=
    periLoop_terminates_general (Real.pi * (lM / 2 + lm / 2)) (periH lM lm)
      hc hh0 hh1
  exact ⟨hh0, hh1, fuel, N, hN1,
    by rw [ellipse_perimeter, if_neg hne, hloop], hbound⟩

/-- C6 counterexample to the claim as stated: the axis lengths `(2, 0)`
satisfy the claim's hypothesis (non-negative, not both zero), yet the
series ratio equals 1, refuting `h < 1`. -/
theorem ellipse_perimeter_h_eq_one_cex :
    (0 : ℝ) ≤ 2 ∧ (0 : ℝ) ≤ 0 ∧ ¬ ((2 : ℝ) / 2 = 0 ∧ (0 : ℝ) / 2 = 0) ∧
    periH 2 0 = 1 ∧ ¬ (periH 2 0 < 1) := by
  norm_num [periH]

theorem ellipse_perimeter_terminates_witness :
    ((0 : ℝ) ≤ 4 ∧ (0 : ℝ) ≤ 2 ∧ ¬ ((4 : ℝ) / 2 = 0 ∧ (2 : ℝ) / 2 = 0)) ∧
    (0 ≤ periH 4 2 ∧ periH 4 2 ≤ 1 ∧
      ∃ fuel N, 1 ≤ N ∧
        ellipse_perimeter 4 2 fuel =
          Except.ok (some (Real.pi * ((4 : ℝ) / 2 + (2 : ℝ) / 2) *
            qsum (periH 4 2) N)) ∧
        Real.pi * ((4 : ℝ) / 2 + (2 : ℝ) / 2) * periH 4 2 ^ N / 4 ^ N ≤ 1e-12) :=
  ⟨⟨by norm_num, by norm_num, by norm_num⟩,
    ellipse_perimeter_terminates 4 2 (by norm_num) (by norm_num) (by norm_num)⟩

end Regression
